import Mathlib

/-!
# Verification of the gas-station-finder retrieval/ranking engine

Shallow embedding of `GasStationfinder/fuel_advisor_demo_haversine.py`
(the retrieval-and-ranking core) and of `apisetting/.venv/api_main.py`
(`ensure_unique_ids`), together with theorems settling the specification
claims about them.

Modelling conventions:
* Python floats are modelled as exact numbers: `ℚ` for every quantity that
  originates from decimal text or literals, `ℝ` for the haversine distance
  (which involves transcendental functions).  `float("inf")` (the result of
  an unparseable price) is modelled as `⊤` in `WithTop ℚ`, which matches
  IEEE ordering of `+inf` against finite values.  IEEE NaN (which would
  arise only when an infinite price flows through min-max normalization)
  has no counterpart here; see `priceToField`.
* A pandas DataFrame is a `List` of row structures; boolean-mask filtering
  is `List.filter`; `sort_values` on several columns is a stable sort by
  the lexicographic key (pandas uses a stable lexsort for multi-column
  sorts), modelled with `List.insertionSort`, which is stable;
  `drop_duplicates(keep="first")` is `dedupKeep`.
* The ranking pipeline is defined once, generically in the ordered field
  `α` carrying the distance column, with the distance function as a
  parameter; the engine itself is the instance at `α = ℝ` with the
  haversine distance.  A cast lemma transports concrete computations done
  in `ℚ` to the real instance.
* Functions that `raise` in Python return `Option`/`Except` here
  (`normalize` on an empty list, `_build_query` on invalid input).
-/

namespace FuelAdvisor

/-! ## Small string helpers (Python `in`, `str.strip`) -/

/-- Python substring containment `needle in hay` on character lists:
some suffix of `hay` starts with `needle`. -/
def strContains (hay needle : String) : Bool :=
  hay.data.tails.any (fun t => needle.data.isPrefixOf t)

/-- Python `str.strip()` at the character-list level: drop whitespace from
both ends.  (Defined on `List Char` rather than through `String.trim` so
that membership reasoning stays elementary and kernel reduction works.) -/
def trimChars (cs : List Char) : List Char :=
  ((cs.dropWhile Char.isWhitespace).reverse.dropWhile Char.isWhitespace).reverse

/-- Python `str.strip()` on strings. -/
def trimStr (s : String) : String :=
  String.mk (trimChars s.data)

/-- Python `str.lower()` (ASCII; the source applies Unicode lowering, which
never differs on the ASCII station/brand/mode strings involved). -/
def lowerStr (s : String) : String :=
  String.mk (s.data.map Char.toLower)

/-! ## `parse_price` (fuel_advisor_demo_haversine.py lines 32-38)

```python
def parse_price(x: str) -> float:
    if x is None or (isinstance(x, float) and math.isnan(x)):
        return float("inf")
    s = str(x).strip()
    m = re.search(r"(\d+(?:\.\d+)?)", s.replace(",", ""))
    return float(m.group(1)) if m else float("inf")
```

A missing cell (`None`/NaN) is modelled as `none : Option String`.
The regex `\d+(?:\.\d+)?` is reproduced by hand: scan left to right for
the first digit, take the maximal digit run, then optionally a dot
followed by at least one digit (greedy).  The source regex additionally
matches non-ASCII Unicode digit classes; only ASCII digits are modelled.
-/

/-- Value of a list of ASCII digit characters read in base 10. -/
def digitsVal (cs : List Char) : ℕ :=
  cs.foldl (fun n c => 10 * n + (c.toNat - 48)) 0

/-- First match of `\d+(?:\.\d+)?` in a character list, as a rational. -/
def extractNum : List Char → Option ℚ
  | [] => none
  | c :: rest =>
    if c.isDigit then
      let ip := (c :: rest).takeWhile Char.isDigit
      let r1 := (c :: rest).dropWhile Char.isDigit
      some (match r1 with
        | '.' :: r2 =>
          let fp := r2.takeWhile Char.isDigit
          if fp.isEmpty then (digitsVal ip : ℚ)
          else (digitsVal ip : ℚ) + (digitsVal fp : ℚ) / (10 : ℚ) ^ fp.length
        | _ => (digitsVal ip : ℚ))
    else extractNum rest

/-- `parse_price`: `⊤` models `float("inf")`. -/
def parse_price (x : Option String) : WithTop ℚ :=
  match x with
  | none => ⊤
  | some s =>
    match extractNum ((trimChars s.data).filter (fun c => c != ',')) with
    | some q => (q : WithTop ℚ)
    | none => ⊤

/-! ## `normalize` (lines 41-46)

```python
def normalize(series: List[float]) -> List[float]:
    lo = min(series)
    hi = max(series)
    if hi == lo:
        return [0.0 for _ in series]
    return [(v - lo) / (hi - lo) for v in series]
```

`min`/`max` raise `ValueError` on an empty list; this is modelled by
returning `none`. -/

def normalize {α : Type} [LinearOrderedField α] (series : List α) : Option (List α) :=
  match series.min?, series.max? with
  | some lo, some hi =>
    if hi = lo then some (series.map fun _ => 0)
    else some (series.map fun v => (v - lo) / (hi - lo))
  | _, _ => none

/-- The column variant used inside `rank_stations`, where the caller has
already guaranteed the list is non-empty (so the `none` branch — the
`ValueError` — is unreachable there). -/
def normColumn {α : Type} [LinearOrderedField α] (series : List α) : List α :=
  (normalize series).getD []

/-! ## `weights_for` (lines 73-105) -/

/-- The five weight coefficients (`dict` keys price/distance/amenity/brand/urgency). -/
structure W where
  price : ℚ
  distance : ℚ
  amenity : ℚ
  brand : ℚ
  urgency : ℚ
deriving DecidableEq, Repr

def W.sum (w : W) : ℚ := w.price + w.distance + w.amenity + w.brand + w.urgency

/-- Base mode weights (lines 82-89). -/
def baseWeights (mode : String) : W :=
  if mode = "emergency" then ⟨25/100, 55/100, 0, 0, 20/100⟩
  else if mode = "budget" then ⟨65/100, 35/100, 0, 0, 0⟩
  else if mode = "comfort" then ⟨35/100, 30/100, 25/100, 10/100, 0⟩
  else ⟨45/100, 45/100, 0, 0, 10/100⟩

/-- Priority nudge (lines 92-97). -/
def nudge (priority : String) (w : W) : W :=
  if priority = "cheapest" then
    { w with price := w.price + 15/100, distance := w.distance - 10/100 }
  else if priority = "closest" then
    { w with distance := w.distance + 15/100, price := w.price - 10/100 }
  else w

/-- Clamp every coefficient at 0 (lines 100-101). -/
def clampW (w : W) : W :=
  ⟨max 0 w.price, max 0 w.distance, max 0 w.amenity, max 0 w.brand, max 0 w.urgency⟩

/-- Post-clamp weights, before renormalization. -/
def clamped (mode priority : String) : W :=
  clampW (nudge (lowerStr priority) (baseWeights (lowerStr mode)))

/-- `weights_for` (lines 73-105): base weights by lower-cased mode, nudged by
lower-cased priority, clamped at 0 and renormalized to sum 1; if the sum
collapsed to 0, an equal price/distance split is returned. -/
def weights_for (mode priority : String) : W :=
  let w := clamped mode priority
  let s := w.sum
  if s = 0 then ⟨1/2, 1/2, 0, 0, 0⟩
  else ⟨w.price / s, w.distance / s, w.amenity / s, w.brand / s, w.urgency / s⟩

/-! ## Data model -/

/-- The validated query (dataclass `Query`, lines 62-70).  Numeric fields are
rationals: they come from decimal command-line/JSON text. -/
structure Query where
  user_lat : ℚ
  user_lon : ℚ
  mode : String
  scale : ℚ
  max_distance : ℚ
  priority : String
  brand : Option String
deriving DecidableEq, Repr

/-- One raw row of the input CSV table.  `price` is the raw cell (`none`
models a missing/NaN cell); `latitude`/`longitude` are the result of
`pd.to_numeric(..., errors="coerce")`: `none` models a missing or
non-numeric cell. -/
structure Row where
  name : String
  address : String
  price : Option String
  latitude : Option ℚ
  longitude : Option ℚ
deriving DecidableEq, Repr

/-- Python truthiness of the optional brand string (`if q.brand:`). -/
def brandActive (brand : Option String) : Bool :=
  match brand with
  | some s => s ≠ ""
  | none => false

/-- Brand-match column (lines 143-146): lower-cased name contains the
stripped, lower-cased brand (`re.escape` makes the pattern a literal
substring). -/
def brandMatchOf (brand : Option String) (name : String) : Bool :=
  match brand with
  | some b => if b ≠ "" then strContains (lowerStr name) (lowerStr (trimStr b)) else false
  | none => false

/-- Comfort-mode amenity proxy from the station name (lines 184-191). -/
def amenity_proxy (name : String) : ℚ :=
  let n := lowerStr name
  (if strContains n "7-eleven" || strContains n "chevron" || strContains n "shell"
    then (1 : ℚ) else 0)
  + (if strContains n "costco" then (1/2 : ℚ) else 0)

/-! ## `ensure_unique_ids` (api_main.py lines 25-32)

```python
def ensure_unique_ids(items):
    seen = {}
    for item in items:
        base = str(item.get("id", "")).strip() or "station"
        count = seen.get(base, 0)
        item["id"] = base if count == 0 else f"{base}-{count+1}"
        seen[base] = count + 1
    return items
```

Only the `id` field of each item is read or written, so items are
modelled by their id strings; the `seen` dict is a function with
default 0. -/

def euiGo (seen : String → ℕ) : List String → List String
  | [] => []
  | x :: xs =>
    let t := trimStr x
    let base := if t = "" then "station" else t
    let count := seen base
    (if count = 0 then base else base ++ "-" ++ toString (count + 1))
      :: euiGo (fun b => if b = base then count + 1 else seen b) xs

def ensure_unique_ids (items : List String) : List String :=
  euiGo (fun _ => 0) items

/-! ## `_build_query` (lines 293-339)

`raise SystemExit(msg)` is modelled as `Except.error msg`. -/

def _build_query (user_lat user_lon : ℚ) (mode : String) (scale : Option ℚ)
    (max_distance : ℚ) (priority : String) (brand : Option String) :
    Except String Query :=
  let mode := lowerStr (trimStr mode)
  let priority := lowerStr (trimStr priority)
  if mode ∉ ["emergency", "budget", "comfort"] then
    .error "Invalid mode. Use one of: emergency, budget, comfort."
  else if priority ∉ ["cheapest", "closest", "balanced"] then
    .error "Invalid priority. Use one of: cheapest, closest, balanced."
  else if ¬(-90 ≤ user_lat ∧ user_lat ≤ 90) then
    .error "Latitude must be in range [-90, 90]."
  else if ¬(-180 ≤ user_lon ∧ user_lon ≤ 180) then
    .error "Longitude must be in range [-180, 180]."
  else
    let scale0 : ℚ := match scale with
      | none => if mode = "budget" then 5 else if mode = "comfort" then 1/2 else 7/10
      | some s => s
    let scale1 : ℚ := if mode = "budget" then max (1/10) scale0
      else max 0 (min 1 scale0)
    let cleanBrand : String := match brand with
      | some b => trimStr b
      | none => ""
    .ok { user_lat := user_lat
          user_lon := user_lon
          mode := mode
          scale := scale1
          max_distance := max (1/10) max_distance
          priority := priority
          brand := if cleanBrand = "" then none else some cleanBrand }

/-! ## Enriched candidate rows (the working DataFrame of `rank_stations`)

After lines 129-146 each surviving row carries: the original row, the
parsed price, numeric coordinates, the distance column, and the
brand-match flag.  The structure is generic in the type `α` of the
distance column: the engine instantiates `α = ℝ` (haversine distances);
concrete evaluations are transported from `α = ℚ` by a cast lemma. -/

structure CRow (α : Type) where
  src : Row
  price : WithTop ℚ
  latitude : ℚ
  longitude : ℚ
  distance : α
  brand_match : Bool
deriving DecidableEq

/-- Lines 129-146 for one row: parse the price, drop the row unless both
coordinates are numeric, compute the distance column and the brand-match
column. -/
def enrichRowG {α : Type} (dist : ℚ → ℚ → ℚ → ℚ → α) (q : Query) (r : Row) :
    Option (CRow α) :=
  match r.latitude, r.longitude with
  | some la, some lo =>
    some { src := r
           price := parse_price r.price
           latitude := la
           longitude := lo
           distance := dist q.user_lat q.user_lon la lo
           brand_match := brandMatchOf q.brand r.name }
  | _, _ => none

/-- Lines 129-146 for the whole table (`dropna` keeps relative order). -/
def enrichG {α : Type} (dist : ℚ → ℚ → ℚ → ℚ → α) (df : List Row) (q : Query) :
    List (CRow α) :=
  df.filterMap (enrichRowG dist q)

/-- Candidate set after the distance filter (line 149) and the optional
brand hard filter (lines 150-152) — i.e. just before the budget cap. -/
def precapG {α : Type} [LinearOrderedField α] (dist : ℚ → ℚ → ℚ → ℚ → α)
    (df : List Row) (q : Query) : List (CRow α) :=
  let afterDist := (enrichG dist df q).filter
    (fun c => decide (c.distance ≤ (q.max_distance : α)))
  if brandActive q.brand then afterDist.filter (fun c => c.brand_match) else afterDist

/-- Candidate set after all hard filters (lines 148-155): in budget mode the
scale is a hard price cap (`out = out[out["price"] <= q.scale]`). -/
def candidatesG {α : Type} [LinearOrderedField α] (dist : ℚ → ℚ → ℚ → ℚ → α)
    (df : List Row) (q : Query) : List (CRow α) :=
  let pc := precapG dist df q
  if q.mode = "budget" then pc.filter (fun c => decide (c.price ≤ (q.scale : WithTop ℚ)))
  else pc

/-! ## Sort keys

`sort_values` on several columns is a stable sort by the lexicographic
key.  `lexKey f g` is "strictly smaller on `f`, or equal on `f` and
related by `g`"; `keyLe f` is the final ascending key. -/

def keyLe {A β : Type} [LinearOrder β] (f : A → β) : A → A → Prop :=
  fun a b => f a ≤ f b

def lexKey {A β : Type} [LinearOrder β] (f : A → β) (g : A → A → Prop) :
    A → A → Prop :=
  fun a b => f a < f b ∨ (f a = f b ∧ g a b)

instance keyLe.isTotal {A β : Type} [LinearOrder β] (f : A → β) :
    IsTotal A (keyLe f) :=
  ⟨fun a b => le_total (f a) (f b)⟩

instance keyLe.isTrans {A β : Type} [LinearOrder β] (f : A → β) :
    IsTrans A (keyLe f) :=
  ⟨fun _ _ _ h1 h2 => le_trans h1 h2⟩

instance keyLe.decidable {A β : Type} [LinearOrder β] (f : A → β) :
    DecidableRel (keyLe f) :=
  fun a b => inferInstanceAs (Decidable (f a ≤ f b))

theorem keyLe_refl {A β : Type} [LinearOrder β] (f : A → β) (a : A) : keyLe f a a :=
  le_refl _

instance lexKey.isTotal {A β : Type} [LinearOrder β] (f : A → β)
    (g : A → A → Prop) [IsTotal A g] : IsTotal A (lexKey f g) := by
  constructor
  intro a b
  rcases lt_trichotomy (f a) (f b) with h | h | h
  · exact Or.inl (Or.inl h)
  · rcases IsTotal.total (r := g) a b with hg | hg
    · exact Or.inl (Or.inr ⟨h, hg⟩)
    · exact Or.inr (Or.inr ⟨h.symm, hg⟩)
  · exact Or.inr (Or.inl h)

instance lexKey.isTrans {A β : Type} [LinearOrder β] (f : A → β)
    (g : A → A → Prop) [IsTrans A g] : IsTrans A (lexKey f g) := by
  constructor
  intro a b c hab hbc
  rcases hab with h1 | ⟨e1, g1⟩
  · rcases hbc with h2 | ⟨e2, _⟩
    · exact Or.inl (h1.trans h2)
    · exact Or.inl (e2 ▸ h1)
  · rcases hbc with h2 | ⟨e2, g2⟩
    · exact Or.inl (e1 ▸ h2)
    · exact Or.inr ⟨e1.trans e2, Trans.trans g1 g2⟩

instance lexKey.decidable {A β : Type} [LinearOrder β] (f : A → β)
    (g : A → A → Prop) [DecidableRel g] : DecidableRel (lexKey f g) :=
  fun a b => inferInstanceAs (Decidable (_ ∨ _))

theorem lexKey_refl {A β : Type} [LinearOrder β] (f : A → β) (g : A → A → Prop)
    (hg : ∀ a, g a a) (a : A) : lexKey f g a a :=
  Or.inr ⟨rfl, hg a⟩

/-- Dedup key of line 162-165: the raw `(name, address)` pair. -/
def rowKey {α : Type} (c : CRow α) : String × String :=
  (c.src.name, c.src.address)

/-- Sort key of the pre-dedup sort (line 162): ascending price then
ascending distance. -/
def pdLe {α : Type} [LinearOrderedField α] : CRow α → CRow α → Prop :=
  lexKey (fun c => c.price) (keyLe fun c => c.distance)

/-- Priority `cheapest` (line 214): ascending price, then ascending score,
then ascending distance.  (The demo's score is minimized, so ascending
score ranks better stations first.) -/
def cheapLe {α : Type} [LinearOrderedField α] : (CRow α × α) → (CRow α × α) → Prop :=
  lexKey (fun p => p.1.price) (lexKey (fun p => p.2) (keyLe fun p => p.1.distance))

/-- Priority `closest` (line 217): ascending distance, then score, then price. -/
def closeLe {α : Type} [LinearOrderedField α] : (CRow α × α) → (CRow α × α) → Prop :=
  lexKey (fun p => p.1.distance) (lexKey (fun p => p.2) (keyLe fun p => p.1.price))

/-- Priority `balanced` (line 219): ascending score. -/
def balLe {α : Type} [LinearOrderedField α] : (CRow α × α) → (CRow α × α) → Prop :=
  keyLe (fun p => p.2)

instance pdLe.decidable {α : Type} [LinearOrderedField α] :
    DecidableRel (pdLe (α := α)) := by unfold pdLe; infer_instance

instance pdLe.isTotal {α : Type} [LinearOrderedField α] :
    IsTotal (CRow α) (pdLe (α := α)) := by unfold pdLe; infer_instance

instance pdLe.isTrans {α : Type} [LinearOrderedField α] :
    IsTrans (CRow α) (pdLe (α := α)) := by unfold pdLe; infer_instance

instance cheapLe.decidable {α : Type} [LinearOrderedField α] :
    DecidableRel (cheapLe (α := α)) := by unfold cheapLe; infer_instance

instance cheapLe.isTotal {α : Type} [LinearOrderedField α] :
    IsTotal (CRow α × α) (cheapLe (α := α)) := by unfold cheapLe; infer_instance

instance cheapLe.isTrans {α : Type} [LinearOrderedField α] :
    IsTrans (CRow α × α) (cheapLe (α := α)) := by unfold cheapLe; infer_instance

instance closeLe.decidable {α : Type} [LinearOrderedField α] :
    DecidableRel (closeLe (α := α)) := by unfold closeLe; infer_instance

instance closeLe.isTotal {α : Type} [LinearOrderedField α] :
    IsTotal (CRow α × α) (closeLe (α := α)) := by unfold closeLe; infer_instance

instance closeLe.isTrans {α : Type} [LinearOrderedField α] :
    IsTrans (CRow α × α) (closeLe (α := α)) := by unfold closeLe; infer_instance

instance balLe.decidable {α : Type} [LinearOrderedField α] :
    DecidableRel (balLe (α := α)) := by unfold balLe; infer_instance

instance balLe.isTotal {α : Type} [LinearOrderedField α] :
    IsTotal (CRow α × α) (balLe (α := α)) := by unfold balLe; infer_instance

instance balLe.isTrans {α : Type} [LinearOrderedField α] :
    IsTrans (CRow α × α) (balLe (α := α)) := by unfold balLe; infer_instance

/-- `drop_duplicates(subset=key, keep="first")`: keep an element iff its key
has not been seen before.  (`seen` starts empty.) -/
def dedupKeep {A κ : Type} [DecidableEq κ] (k : A → κ) :
    List κ → List A → List A
  | _, [] => []
  | seen, x :: xs =>
    if k x ∈ seen then dedupKeep k seen xs
    else x :: dedupKeep k (k x :: seen) xs

/-! ## Scoring (lines 167-210) -/

/-- The price column as a field element, for normalization (line 168).
`⊤` (an unparseable price, IEEE `+inf`) has no counterpart in an ordered
field and is sent to 0: in the source, an infinite price flowing through
`normalize` produces IEEE NaN scores, which this model does not
reproduce — theorems whose truth depends on score *values* therefore
restrict attention to finite prices. -/
def priceToField {α : Type} [LinearOrderedField α] (p : WithTop ℚ) : α :=
  ((p.untop' 0 : ℚ) : α)

/-- Score column (lines 167-210) for the deduplicated candidate list `dd`:
normalized price/distance/amenity columns, mode-aware urgency and comfort
scales, amenity and brand bonuses, combined with the `weights_for`
profile.  The score is minimized (line 77). -/
def scoresOf {α : Type} [LinearOrderedField α] (q : Query) (dd : List (CRow α)) :
    List α :=
  let np := normColumn (dd.map fun c => priceToField c.price)
  let nd := normColumn (dd.map fun c => c.distance)
  let na := normColumn (dd.map fun c => ((amenity_proxy c.src.name : ℚ) : α))
  let w := weights_for q.mode q.priority
  let eu : ℚ := if q.mode = "emergency" then q.scale else 0
  let comfort_scale : ℚ := if q.mode = "comfort" then q.scale else 1/2
  let am : ℚ := if q.mode = "comfort" then 1/2 + comfort_scale else 1
  let bm : ℚ := if q.mode = "comfort" then 1/2 + comfort_scale else 1
  let bb : List α :=
    if brandActive q.brand then
      dd.map fun c => if c.brand_match then (-(7/100) : α) else 0
    else dd.map fun _ => 0
  let s1 := List.zipWith
    (fun p d => (w.price : α) * p + (w.distance : α) * d
      + (w.urgency : α) * ((eu : α) * d ^ 2)) np nd
  let s2 := List.zipWith
    (fun acc a => acc + (w.amenity : α) * (am : α) * (-(1/10 : α) * a)) s1 na
  List.zipWith (fun acc b => acc + (w.brand : α) * (bm : α) * b) s2 bb

/-- `rank_stations` (lines 125-224), generically in the distance column type.
Justification strings (lines 108-122, 221-223) only add a text column and
are not modelled.  Each output element pairs a deduplicated candidate row
with its score. -/
def rank_stationsG {α : Type} [LinearOrderedField α]
    (dist : ℚ → ℚ → ℚ → ℚ → α) (df : List Row) (q : Query) (top_k : ℕ) :
    List (CRow α × α) :=
  let cands := candidatesG dist df q
  if cands.isEmpty then []
  else
    let dd := dedupKeep rowKey [] (List.insertionSort pdLe cands)
    let scored := dd.zip (scoresOf q dd)
    let ranked :=
      if q.priority = "cheapest" then List.insertionSort cheapLe scored
      else if q.priority = "closest" then List.insertionSort closeLe scored
      else List.insertionSort balLe scored
    ranked.take top_k

/-! ## Haversine distance (lines 49-59) and the real engine -/

open Real in
/-- Two-argument arctangent, as `math.atan2`. -/
noncomputable def atan2 (y x : ℝ) : ℝ :=
  if 0 < x then arctan (y / x)
  else if x < 0 ∧ 0 ≤ y then arctan (y / x) + π
  else if x < 0 ∧ y < 0 then arctan (y / x) - π
  else if x = 0 ∧ 0 < y then π / 2
  else if x = 0 ∧ y < 0 then -(π / 2)
  else 0

/-- `math.radians`: degrees to radians. -/
noncomputable def radians (x : ℝ) : ℝ := x * Real.pi / 180

open Real in
/-- `haversine_miles` (lines 49-59): great-circle distance in miles. -/
noncomputable def haversine_miles (lat1 lon1 lat2 lon2 : ℝ) : ℝ :=
  let R : ℝ := 3958.8
  let dlat := radians (lat2 - lat1)
  let dlon := radians (lon2 - lon1)
  let a := sin (dlat / 2) ^ 2
    + cos (radians lat1) * cos (radians lat2) * sin (dlon / 2) ^ 2
  let c := 2 * atan2 (Real.sqrt a) (Real.sqrt (1 - a))
  R * c

/-- The engine's distance column function: haversine on the (rational)
query/station coordinates. -/
noncomputable def havDist (lat1 lon1 lat2 lon2 : ℚ) : ℝ :=
  haversine_miles (lat1 : ℝ) (lon1 : ℝ) (lat2 : ℝ) (lon2 : ℝ)

/-- The per-row parse/validate stage of the engine (lines 129-146). -/
noncomputable def enrichRow (q : Query) (r : Row) : Option (CRow ℝ) :=
  enrichRowG havDist q r

/-- The pre-budget-cap candidate set of the engine. -/
noncomputable def precap (df : List Row) (q : Query) : List (CRow ℝ) :=
  precapG havDist df q

/-- The post-filter candidate set of the engine. -/
noncomputable def candidates (df : List Row) (q : Query) : List (CRow ℝ) :=
  candidatesG havDist df q

/-- `rank_stations` (lines 125-224): the engine, with haversine distances. -/
noncomputable def rank_stations (df : List Row) (q : Query) (top_k : ℕ) :
    List (CRow ℝ × ℝ) :=
  rank_stationsG havDist df q top_k

/-! ## Helper lemmas: `List.min?`/`List.max?` over a linear order -/

theorem foldl_min_mem {α : Type} [LinearOrder α] (x : α) (xs : List α) :
    xs.foldl min x ∈ x :: xs := by
  induction xs generalizing x with
  | nil => simp
  | cons y ys ih =>
    have h := ih (min x y)
    rcases min_choice x y with hm | hm <;>
      · rw [hm] at h
        rcases List.mem_cons.mp h with h1 | h1 <;> simp [List.foldl_cons, hm, h1]

theorem foldl_min_le {α : Type} [LinearOrder α] (x : α) (xs : List α) :
    ∀ b ∈ x :: xs, xs.foldl min x ≤ b := by
  induction xs generalizing x with
  | nil => intro b hb; rcases List.mem_singleton.mp hb with rfl; exact le_refl _
  | cons y ys ih =>
    intro b hb
    have hmin : ys.foldl min (min x y) ≤ min x y := ih (min x y) _ (List.mem_cons_self _ _)
    rcases List.mem_cons.mp hb with rfl | hb1
    · exact le_trans (by simpa using hmin) (min_le_left _ _)
    rcases List.mem_cons.mp hb1 with rfl | hb2
    · exact le_trans (by simpa using hmin) (min_le_right _ _)
    · exact ih (min x y) b (List.mem_cons_of_mem _ hb2)

theorem le_foldl_max {α : Type} [LinearOrder α] (x : α) (xs : List α) :
    ∀ b ∈ x :: xs, b ≤ xs.foldl max x := by
  induction xs generalizing x with
  | nil => intro b hb; rcases List.mem_singleton.mp hb with rfl; exact le_refl _
  | cons y ys ih =>
    intro b hb
    have hmax : max x y ≤ ys.foldl max (max x y) := ih (max x y) _ (List.mem_cons_self _ _)
    rcases List.mem_cons.mp hb with rfl | hb1
    · exact le_trans (le_max_left _ _) (by simpa using hmax)
    rcases List.mem_cons.mp hb1 with rfl | hb2
    · exact le_trans (le_max_right _ _) (by simpa using hmax)
    · exact ih (max x y) b (List.mem_cons_of_mem _ hb2)

theorem foldl_max_mem {α : Type} [LinearOrder α] (x : α) (xs : List α) :
    xs.foldl max x ∈ x :: xs := by
  induction xs generalizing x with
  | nil => simp
  | cons y ys ih =>
    have h := ih (max x y)
    rcases max_choice x y with hm | hm <;>
      · rw [hm] at h
        rcases List.mem_cons.mp h with h1 | h1 <;> simp [List.foldl_cons, hm, h1]

theorem min?_cons_eq {α : Type} [LinearOrder α] (x : α) (xs : List α) :
    (x :: xs).min? = some (xs.foldl min x) := rfl

theorem max?_cons_eq {α : Type} [LinearOrder α] (x : α) (xs : List α) :
    (x :: xs).max? = some (xs.foldl max x) := rfl

/-! ## Helper lemmas: characters and substrings -/

theorem mem_dropWhile_of_not {α : Type} (p : α → Bool) {c : α} (hc : p c = false) :
    ∀ {l : List α}, c ∈ l → c ∈ l.dropWhile p := by
  intro l hl
  induction l with
  | nil => simp at hl
  | cons a as ih =>
    by_cases ha : p a = true
    · rw [List.dropWhile_cons_of_pos ha]
      rcases List.mem_cons.mp hl with rfl | h2
      · rw [ha] at hc; cases hc
      · exact ih h2
    · rw [List.dropWhile_cons_of_neg ha]; exact hl

theorem mem_of_mem_trimChars {c : Char} {cs : List Char} (h : c ∈ trimChars cs) :
    c ∈ cs := by
  unfold trimChars at h
  rw [List.mem_reverse] at h
  have h1 := (List.dropWhile_sublist Char.isWhitespace).mem h
  rw [List.mem_reverse] at h1
  exact (List.dropWhile_sublist Char.isWhitespace).mem h1

theorem mem_trimChars_of_mem {c : Char} {cs : List Char}
    (hws : c.isWhitespace = false) (h : c ∈ cs) : c ∈ trimChars cs := by
  unfold trimChars
  rw [List.mem_reverse]
  apply mem_dropWhile_of_not _ hws
  rw [List.mem_reverse]
  exact mem_dropWhile_of_not _ hws h

theorem digit_not_whitespace {c : Char} (h : c.isDigit = true) :
    c.isWhitespace = false := by
  cases hws : c.isWhitespace
  · rfl
  · exfalso
    have hd : ((c = ' ' ∨ c = '\t') ∨ c = '\r') ∨ c = '\n' := by
      have := hws
      unfold Char.isWhitespace at this
      simpa [Bool.or_eq_true, decide_eq_true_eq] using this
    rcases hd with ((rfl | rfl) | rfl) | rfl <;> exact absurd h (by decide)

theorem digit_ne_comma {c : Char} (h : c.isDigit = true) : c ≠ ',' := by
  rintro rfl; exact absurd h (by decide)

/-! ## Helper lemmas: `extractNum` and `parse_price` -/

theorem extractNum_eq_none_iff {cs : List Char} :
    extractNum cs = none ↔ ∀ c ∈ cs, ¬ c.isDigit := by
  induction cs with
  | nil => simp [extractNum]
  | cons c rest ih =>
    by_cases hd : c.isDigit
    · simp [extractNum, hd]
    · simp [extractNum, hd, ih]

/-- Does the raw price cell contain an (ASCII) digit? -/
def priceTextHasDigit (x : Option String) : Bool :=
  match x with
  | none => false
  | some s => s.data.any Char.isDigit

theorem parse_price_top_iff (x : Option String) :
    parse_price x = ⊤ ↔ priceTextHasDigit x = false := by
  cases x with
  | none => simp [parse_price, priceTextHasDigit]
  | some s =>
    have key : (extractNum ((trimChars s.data).filter (fun c => c != ','))) = none
        ↔ s.data.any Char.isDigit = false := by
      rw [extractNum_eq_none_iff, List.any_eq_false]
      constructor
      · intro h c hc hcd
        exact h c (List.mem_filter.mpr
          ⟨mem_trimChars_of_mem (digit_not_whitespace hcd) hc,
            by simpa using digit_ne_comma hcd⟩) hcd
      · intro h c hc hcd
        exact h c (mem_of_mem_trimChars (List.mem_filter.mp hc).1) hcd
    have unf : parse_price (some s) = ⊤
        ↔ extractNum ((trimChars s.data).filter (fun c => c != ',')) = none := by
      unfold parse_price
      cases he : extractNum ((trimChars s.data).filter (fun c => c != ',')) with
      | none => simp [he]
      | some q => simp [he, WithTop.coe_ne_top]
    rw [unf, key]
    rfl

/-! ## Claim C3 (`ensure_unique_ids`, api_main.py lines 25-32) -/

/-- **C3** (code bug): `ensure_unique_ids` does **not** guarantee pairwise
distinct ids.  On the input ids `["a", "a", "a-2"]` the second occurrence
of `a` is renamed to `a-2`, which collides with the pre-existing id
`a-2` (whose own base was never seen before, so it is kept verbatim):
the output `["a", "a-2", "a-2"]` contains a repeated id, contradicting
the claim that no two entries of a result list share an `id` string. -/
theorem ensure_unique_ids_collision :
    ensure_unique_ids ["a", "a", "a-2"] = ["a", "a-2", "a-2"] ∧
      ¬ (ensure_unique_ids ["a", "a", "a-2"]).Nodup := by
  constructor
  · decide
  · intro h
    rw [show ensure_unique_ids ["a", "a", "a-2"] = ["a", "a-2", "a-2"] by decide] at h
    simp [List.nodup_cons] at h

/-! ## Claims C4 and C5 (`normalize`, lines 41-46) -/

/-- **C4** (counterexample): applied to the empty sequence, `normalize` does
**not** return the empty sequence — `min(series)` raises `ValueError`
(modelled by `none`), so the result is not `some []`. -/
theorem normalize_empty_not_empty_list : normalize ([] : List ℝ) ≠ some [] := by
  intro h
  exact Option.noConfusion h

/-- **C4** (amended): `normalize` applied to the empty sequence raises an
error — `min`/`max` of an empty sequence fail, modelled by `none`.  (Inside
the engine the call sites are guarded by a non-emptiness check, so the
error branch is unreachable there.) -/
theorem normalize_empty_errors : normalize ([] : List ℝ) = none := rfl

/-- **C5**: on every non-empty input, `normalize` succeeds (the division is
guarded: when `max = min` no division is performed and all outputs are 0)
and returns a list of the same length with every value in `[0, 1]`; if
moreover all input values are equal, the output is all zeros. -/
theorem normalize_bounds (l : List ℝ) (h : l ≠ []) :
    ∃ out, normalize l = some out ∧ out.length = l.length ∧
      (∀ v ∈ out, 0 ≤ v ∧ v ≤ 1) ∧
      ((∀ x ∈ l, ∀ y ∈ l, x = y) → out = l.map fun _ => (0 : ℝ)) := by
  obtain ⟨x, xs, rfl⟩ := List.exists_cons_of_ne_nil h
  set lo := xs.foldl min x with hlo
  set hi := xs.foldl max x with hhi
  have hmem_lo : lo ∈ x :: xs := foldl_min_mem x xs
  have hmem_hi : hi ∈ x :: xs := foldl_max_mem x xs
  have hlo_le : ∀ b ∈ x :: xs, lo ≤ b := foldl_min_le x xs
  have hle_hi : ∀ b ∈ x :: xs, b ≤ hi := le_foldl_max x xs
  have hnorm : normalize (x :: xs)
      = if hi = lo then some ((x :: xs).map fun _ => 0)
        else some ((x :: xs).map fun v => (v - lo) / (hi - lo)) := by
    unfold normalize
    rw [min?_cons_eq, max?_cons_eq]
  by_cases heq : hi = lo
  · refine ⟨(x :: xs).map fun _ => 0, ?_, by simp, by simp, fun _ => rfl⟩
    rw [hnorm, if_pos heq]
  · refine ⟨(x :: xs).map fun v => (v - lo) / (hi - lo), ?_, by simp, ?_, ?_⟩
    · rw [hnorm, if_neg heq]
    · intro v hv
      obtain ⟨u, hu, rfl⟩ := List.mem_map.mp hv
      have hlt : lo < hi := lt_of_le_of_ne (le_trans (hlo_le x (by simp)) (hle_hi x (by simp)))
        (fun e => heq e.symm)
      constructor
      · exact div_nonneg (sub_nonneg.mpr (hlo_le u hu)) (le_of_lt (sub_pos.mpr hlt))
      · rw [div_le_one (sub_pos.mpr hlt)]
        exact sub_le_sub_right (hle_hi u hu) lo
    · intro hall
      exact absurd (hall hi hmem_hi lo hmem_lo) heq

/-- Witness for C5 at the concrete input `[1, 2]`. -/
theorem normalize_bounds_witness :
    ∃ out, normalize [(1 : ℝ), 2] = some out ∧ out.length = [(1 : ℝ), 2].length ∧
      (∀ v ∈ out, 0 ≤ v ∧ v ≤ 1) ∧
      ((∀ x ∈ [(1 : ℝ), 2], ∀ y ∈ [(1 : ℝ), 2], x = y) →
        out = [(1 : ℝ), 2].map fun _ => (0 : ℝ)) :=
  normalize_bounds [(1 : ℝ), 2] (by simp)

/-! ## Claim C8 (`weights_for`, lines 73-105) -/

/-- **C8**: for every mode and priority string, all five coefficients of the
weight profile are non-negative and sum to exactly 1; and in the
degenerate branch where the clamped weights sum to zero, the profile is
the equal price/distance split. -/
theorem weights_for_sum_one (mode priority : String) :
    (0 ≤ (weights_for mode priority).price ∧ 0 ≤ (weights_for mode priority).distance ∧
      0 ≤ (weights_for mode priority).amenity ∧ 0 ≤ (weights_for mode priority).brand ∧
      0 ≤ (weights_for mode priority).urgency ∧ (weights_for mode priority).sum = 1) ∧
    ((clamped mode priority).sum = 0 →
      weights_for mode priority = ⟨1/2, 1/2, 0, 0, 0⟩) := by
  have hfields : 0 ≤ (clamped mode priority).price ∧ 0 ≤ (clamped mode priority).distance ∧
      0 ≤ (clamped mode priority).amenity ∧ 0 ≤ (clamped mode priority).brand ∧
      0 ≤ (clamped mode priority).urgency := by
    unfold clamped clampW
    exact ⟨le_max_left _ _, le_max_left _ _, le_max_left _ _, le_max_left _ _,
      le_max_left _ _⟩
  have hpos : 0 < (clamped mode priority).sum := by
    unfold clamped clampW nudge baseWeights W.sum
    by_cases h1 : lowerStr mode = "emergency" <;>
    by_cases h2 : lowerStr mode = "budget" <;>
    by_cases h3 : lowerStr mode = "comfort" <;>
    by_cases h4 : lowerStr priority = "cheapest" <;>
    by_cases h5 : lowerStr priority = "closest" <;>
      simp [h1, h2, h3, h4, h5] <;> norm_num
  constructor
  · have hne : (clamped mode priority).sum ≠ 0 := ne_of_gt hpos
    have hw : weights_for mode priority
        = ⟨(clamped mode priority).price / (clamped mode priority).sum,
           (clamped mode priority).distance / (clamped mode priority).sum,
           (clamped mode priority).amenity / (clamped mode priority).sum,
           (clamped mode priority).brand / (clamped mode priority).sum,
           (clamped mode priority).urgency / (clamped mode priority).sum⟩ := by
      simp only [weights_for]
      rw [if_neg hne]
    rw [hw]
    refine ⟨div_nonneg hfields.1 hpos.le, div_nonneg hfields.2.1 hpos.le,
      div_nonneg hfields.2.2.1 hpos.le, div_nonneg hfields.2.2.2.1 hpos.le,
      div_nonneg hfields.2.2.2.2 hpos.le, ?_⟩
    show (clamped mode priority).price / (clamped mode priority).sum
      + (clamped mode priority).distance / (clamped mode priority).sum
      + (clamped mode priority).amenity / (clamped mode priority).sum
      + (clamped mode priority).brand / (clamped mode priority).sum
      + (clamped mode priority).urgency / (clamped mode priority).sum = 1
    rw [div_add_div_same, div_add_div_same, div_add_div_same, div_add_div_same]
    exact div_self hne
  · intro h0
    simp only [weights_for]
    rw [if_pos h0]

/-- Witness for C8 at mode `budget`, priority `cheapest`. -/
theorem weights_for_sum_one_witness : (weights_for "budget" "cheapest").sum = 1 :=
  (weights_for_sum_one "budget" "cheapest").1.2.2.2.2.2

/-! ## Claim C9 (`_build_query`, lines 293-339) -/

/-- **C9**: a request with out-of-range coordinates or an unrecognized
(normalized) mode or priority is rejected by `_build_query` with a
structured invalid-request signal (`SystemExit`, modelled as
`Except.error`); no `Query` is produced, so no filtering or scoring can
run on it. -/
theorem invalid_query_rejected (user_lat user_lon : ℚ) (mode : String)
    (scale : Option ℚ) (max_distance : ℚ) (priority : String) (brand : Option String)
    (h : ¬(-90 ≤ user_lat ∧ user_lat ≤ 90) ∨ ¬(-180 ≤ user_lon ∧ user_lon ≤ 180)
      ∨ lowerStr (trimStr mode) ∉ ["emergency", "budget", "comfort"]
      ∨ lowerStr (trimStr priority) ∉ ["cheapest", "closest", "balanced"]) :
    ∃ msg, _build_query user_lat user_lon mode scale max_distance priority brand
      = .error msg := by
  simp only [_build_query]
  by_cases h1 : lowerStr (trimStr mode) ∉ ["emergency", "budget", "comfort"]
  · rw [if_pos h1]; exact ⟨_, rfl⟩
  rw [if_neg h1]
  by_cases h2 : lowerStr (trimStr priority) ∉ ["cheapest", "closest", "balanced"]
  · rw [if_pos h2]; exact ⟨_, rfl⟩
  rw [if_neg h2]
  by_cases h3 : ¬(-90 ≤ user_lat ∧ user_lat ≤ 90)
  · rw [if_pos h3]; exact ⟨_, rfl⟩
  rw [if_neg h3]
  by_cases h4 : ¬(-180 ≤ user_lon ∧ user_lon ≤ 180)
  · rw [if_pos h4]; exact ⟨_, rfl⟩
  exfalso
  rcases h with hc | hc | hc | hc
  · exact h3 hc
  · exact h4 hc
  · exact h1 hc
  · exact h2 hc

/-- Witness for C9: latitude 100 is out of range and rejected. -/
theorem invalid_query_rejected_witness :
    ∃ msg, _build_query 100 0 "budget" none 6 "balanced" none = .error msg :=
  invalid_query_rejected 100 0 "budget" none 6 "balanced" none
    (Or.inl (by norm_num))

/-! ## Claim C10 (`parse_price` and the coordinate drop, lines 32-38 / 129-134) -/

/-- **C10**: the per-row validation stage keeps a row (producing a candidate
whose price column is `parse_price` of the raw cell) exactly when both
coordinates are numeric — an unparseable price never drops a row — and
`parse_price` returns `+inf` (`⊤`) exactly when the raw price cell has no
numeric token, so such rows stay in candidacy with a worst-case price
(and are only ever ranked behind, or cap-filtered against, finite
prices). -/
theorem bad_price_kept_bad_coords_dropped (q : Query) (r : Row) :
    ((enrichRow q r).map (fun c => c.price)
      = if r.latitude.isSome ∧ r.longitude.isSome
        then some (parse_price r.price) else none)
    ∧ (parse_price r.price = ⊤ ↔ priceTextHasDigit r.price = false) := by
  constructor
  · unfold enrichRow enrichRowG
    cases hla : r.latitude with
    | none => cases hlo : r.longitude <;> simp
    | some la => cases hlo : r.longitude <;> simp
  · exact parse_price_top_iff r.price

/-- Witness for C10 at a concrete row with an unparseable price and valid
coordinates (the row is kept, with price `⊤`). -/
theorem bad_price_kept_bad_coords_dropped_witness :
    ((enrichRow ⟨34, -118, "emergency", 7/10, 6, "balanced", none⟩
        ⟨"Foo Gas", "1 Main St", some "call for price", some 34, some (-118)⟩).map
          (fun c => c.price)
      = if (some (34 : ℚ)).isSome ∧ (some (-118 : ℚ)).isSome
        then some (parse_price (some "call for price")) else none)
    ∧ (parse_price (some "call for price") = ⊤
        ↔ priceTextHasDigit (some "call for price") = false) :=
  bad_price_kept_bad_coords_dropped _ _

/-! ## Pipeline lemmas: provenance and filter monotonicity -/

theorem enrichRowG_src {α : Type} (dist : ℚ → ℚ → ℚ → ℚ → α) (q : Query) (r : Row)
    (c : CRow α) (h : enrichRowG dist q r = some c) : c.src = r := by
  cases hla : r.latitude with
  | none => simp [enrichRowG, hla] at h
  | some la =>
    cases hlo : r.longitude with
    | none => simp [enrichRowG, hla, hlo] at h
    | some lo =>
      simp [enrichRowG, hla, hlo] at h
      rw [← h]

theorem enrichG_map_src_sublist {α : Type} (dist : ℚ → ℚ → ℚ → ℚ → α)
    (df : List Row) (q : Query) :
    ((enrichG dist df q).map (fun c => c.src)).Sublist df := by
  induction df with
  | nil => simp [enrichG]
  | cons r rest ih =>
    unfold enrichG at ih ⊢
    rw [List.filterMap_cons]
    cases h : enrichRowG dist q r with
    | none => exact ih.cons r
    | some c =>
      rw [List.map_cons, enrichRowG_src dist q r c h]
      exact ih.cons₂ r

theorem precapG_sublist_enrich {α : Type} [LinearOrderedField α]
    (dist : ℚ → ℚ → ℚ → ℚ → α) (df : List Row) (q : Query) :
    (precapG dist df q).Sublist (enrichG dist df q) := by
  unfold precapG
  cases hb : brandActive q.brand with
  | false =>
    simp only [hb, Bool.false_eq_true, if_false]
    exact List.filter_sublist _
  | true =>
    simp only [hb, if_true]
    exact (List.filter_sublist _).trans (List.filter_sublist _)

theorem candidatesG_sublist_precap {α : Type} [LinearOrderedField α]
    (dist : ℚ → ℚ → ℚ → ℚ → α) (df : List Row) (q : Query) :
    (candidatesG dist df q).Sublist (precapG dist df q) := by
  unfold candidatesG
  by_cases hm : q.mode = "budget"
  · simp only [hm, if_pos]
    exact List.filter_sublist _
  · simp only [hm, if_neg, ite_false]
    exact List.Sublist.refl _

theorem candidatesG_mono {α : Type} [LinearOrderedField α]
    (dist : ℚ → ℚ → ℚ → ℚ → α) (df : List Row) (q : Query) (d' : ℚ)
    (hd : d' ≤ q.max_distance) :
    (candidatesG dist df { q with max_distance := d' }).Sublist
      (candidatesG dist df q) := by
  have hpre : (precapG dist df { q with max_distance := d' }).Sublist
      (precapG dist df q) := by
    unfold precapG
    have hfil : ((enrichG dist df q).filter
        (fun c => decide (c.distance ≤ (d' : α)))).Sublist
        ((enrichG dist df q).filter
          (fun c => decide (c.distance ≤ (q.max_distance : α)))) := by
      apply List.monotone_filter_right
      intro c hc
      rw [decide_eq_true_eq] at hc ⊢
      exact le_trans hc (by exact_mod_cast hd)
    cases hb : brandActive q.brand with
    | false => simpa [hb] using hfil
    | true =>
      simp only [hb, if_true]
      exact hfil.filter _
  unfold candidatesG
  by_cases hm : q.mode = "budget"
  · simp only [hm, if_pos]
    exact hpre.filter _
  · simp only [hm, if_neg, ite_false]
    exact hpre

/-! ## Claim C7 (hard filters, lines 148-155) -/

/-- **C7**: the candidate set after the hard filters is a sublist of the
input table (each candidate is one input row; no filter re-admits an
excluded row), and shrinking `max_distance` (all other query fields
unchanged) shrinks the candidate set: the smaller-radius candidate list
is a sublist of the larger-radius one, so in particular never longer. -/
theorem filter_monotonicity (df : List Row) (q : Query) (d' : ℚ)
    (hd : d' ≤ q.max_distance) :
    ((candidates df q).map (fun c => c.src)).Sublist df
    ∧ (candidates df { q with max_distance := d' }).Sublist (candidates df q)
    ∧ (candidates df { q with max_distance := d' }).length
        ≤ (candidates df q).length := by
  have h1 : ((candidates df q).map (fun c => c.src)).Sublist df :=
    (((candidatesG_sublist_precap havDist df q).trans
      (precapG_sublist_enrich havDist df q)).map _).trans
      (enrichG_map_src_sublist havDist df q)
  have h2 := candidatesG_mono havDist df q d' hd
  exact ⟨h1, h2, h2.length_le⟩

/-- Witness for C7 at a concrete table/query with radius shrunk from 6 to 3. -/
theorem filter_monotonicity_witness :
    ((candidates [⟨"Foo Gas", "1 Main St", some "4.00", some 34, some (-118)⟩]
        ⟨34, -118, "emergency", 7/10, 6, "balanced", none⟩).map
          (fun c => c.src)).Sublist
        [⟨"Foo Gas", "1 Main St", some "4.00", some 34, some (-118)⟩]
    ∧ (candidates [⟨"Foo Gas", "1 Main St", some "4.00", some 34, some (-118)⟩]
        { (⟨34, -118, "emergency", 7/10, 6, "balanced", none⟩ : Query) with
            max_distance := 3 }).Sublist
        (candidates [⟨"Foo Gas", "1 Main St", some "4.00", some 34, some (-118)⟩]
          ⟨34, -118, "emergency", 7/10, 6, "balanced", none⟩)
    ∧ (candidates [⟨"Foo Gas", "1 Main St", some "4.00", some 34, some (-118)⟩]
        { (⟨34, -118, "emergency", 7/10, 6, "balanced", none⟩ : Query) with
            max_distance := 3 }).length
        ≤ (candidates [⟨"Foo Gas", "1 Main St", some "4.00", some 34, some (-118)⟩]
            ⟨34, -118, "emergency", 7/10, 6, "balanced", none⟩).length :=
  filter_monotonicity _ _ 3 (by norm_num)

/-! ## Lemmas about `dedupKeep` -/

theorem dedupKeep_sublist {A κ : Type} [DecidableEq κ] (k : A → κ) :
    ∀ (seen : List κ) (l : List A), (dedupKeep k seen l).Sublist l := by
  intro seen l
  induction l generalizing seen with
  | nil => simp [dedupKeep]
  | cons x xs ih =>
    unfold dedupKeep
    by_cases h : k x ∈ seen
    · rw [if_pos h]; exact (ih seen).cons x
    · rw [if_neg h]; exact (ih _).cons₂ x

theorem dedupKeep_key_not_seen {A κ : Type} [DecidableEq κ] (k : A → κ) :
    ∀ (seen : List κ) (l : List A) (x : A),
      x ∈ dedupKeep k seen l → k x ∉ seen := by
  intro seen l
  induction l generalizing seen with
  | nil => intro x hx; simp [dedupKeep] at hx
  | cons y xs ih =>
    intro x hx
    unfold dedupKeep at hx
    by_cases h : k y ∈ seen
    · rw [if_pos h] at hx
      exact ih seen x hx
    · rw [if_neg h] at hx
      rcases List.mem_cons.mp hx with rfl | hx'
      · exact h
      · intro hmem
        exact ih (k y :: seen) x hx' (List.mem_cons_of_mem _ hmem)

theorem dedupKeep_keys_nodup {A κ : Type} [DecidableEq κ] (k : A → κ) :
    ∀ (seen : List κ) (l : List A), ((dedupKeep k seen l).map k).Nodup := by
  intro seen l
  induction l generalizing seen with
  | nil => simp [dedupKeep]
  | cons x xs ih =>
    unfold dedupKeep
    by_cases h : k x ∈ seen
    · rw [if_pos h]; exact ih seen
    · rw [if_neg h]
      rw [List.map_cons, List.nodup_cons]
      refine ⟨?_, ih (k x :: seen)⟩
      intro hmem
      obtain ⟨y, hy, hky⟩ := List.mem_map.mp hmem
      exact dedupKeep_key_not_seen k _ _ y hy (by rw [hky]; exact List.mem_cons_self _ _)

theorem dedupKeep_min {A κ : Type} [DecidableEq κ] (k : A → κ) (r : A → A → Prop)
    (hrefl : ∀ a, r a a) :
    ∀ (seen : List κ) (l : List A), l.Pairwise r →
      ∀ x ∈ dedupKeep k seen l, ∀ c ∈ l, k c = k x → r x c := by
  intro seen l
  induction l generalizing seen with
  | nil => intro _ x hx; simp [dedupKeep] at hx
  | cons y xs ih =>
    intro hp x hx c hc hkc
    have hp' : xs.Pairwise r := hp.of_cons
    unfold dedupKeep at hx
    by_cases h : k y ∈ seen
    · rw [if_pos h] at hx
      rcases List.mem_cons.mp hc with rfl | hc'
      · exact absurd (hkc ▸ h) (dedupKeep_key_not_seen k seen xs x hx)
      · exact ih seen hp' x hx c hc' hkc
    · rw [if_neg h] at hx
      rcases List.mem_cons.mp hx with rfl | hx'
      · rcases List.mem_cons.mp hc with rfl | hc'
        · exact hrefl _
        · exact List.rel_of_pairwise_cons hp hc'
      · rcases List.mem_cons.mp hc with rfl | hc'
        · exact absurd (by rw [hkc]; exact List.mem_cons_self _ _)
            (dedupKeep_key_not_seen k (k c :: seen) xs x hx')
        · exact ih (k y :: seen) hp' x hx' c hc' hkc

theorem pdLe_refl {α : Type} [LinearOrderedField α] (c : CRow α) : pdLe c c :=
  lexKey_refl _ _ (fun a => keyLe_refl _ a) c

/-! ## Length lemmas for the score column -/

theorem normColumn_length {α : Type} [LinearOrderedField α] (l : List α) :
    (normColumn l).length = l.length := by
  cases l with
  | nil => rfl
  | cons x xs =>
    unfold normColumn normalize
    rw [min?_cons_eq, max?_cons_eq]
    by_cases h : xs.foldl max x = xs.foldl min x
    · simp [h]
    · simp [h]

theorem scoresOf_length {α : Type} [LinearOrderedField α] (q : Query)
    (dd : List (CRow α)) : (scoresOf q dd).length = dd.length := by
  unfold scoresOf
  simp only [List.length_zipWith, normColumn_length, List.length_map]
  split <;> simp

/-! ## Generic theorems about `rank_stationsG` -/

theorem rank_dedup_generic {α : Type} [LinearOrderedField α]
    (dist : ℚ → ℚ → ℚ → ℚ → α) (df : List Row) (q : Query) (k : ℕ) :
    ((rank_stationsG dist df q k).map (fun p => rowKey p.1)).Nodup
    ∧ ∀ p ∈ rank_stationsG dist df q k, ∀ c ∈ candidatesG dist df q,
        rowKey c = rowKey p.1 → pdLe p.1 c := by
  simp only [rank_stationsG]
  by_cases hc : (candidatesG dist df q).isEmpty
  · rw [if_pos hc]
    simp
  · rw [if_neg hc]
    set cands := candidatesG dist df q with hcands
    set sorted := List.insertionSort pdLe cands with hsorted
    set dd := dedupKeep rowKey [] sorted with hdd
    set scored := dd.zip (scoresOf q dd) with hscored
    set ranked := (if q.priority = "cheapest" then List.insertionSort cheapLe scored
      else if q.priority = "closest" then List.insertionSort closeLe scored
      else List.insertionSort balLe scored) with hranked
    have hslen : (scoresOf q dd).length = dd.length := scoresOf_length q dd
    have hfst : scored.map Prod.fst = dd :=
      List.map_fst_zip dd _ (le_of_eq hslen.symm)
    have hkeys : (dd.map rowKey).Nodup := dedupKeep_keys_nodup rowKey [] sorted
    have hsortedPW : sorted.Pairwise pdLe := List.sorted_insertionSort pdLe cands
    have hmin : ∀ x ∈ dd, ∀ c ∈ sorted, rowKey c = rowKey x → pdLe x c :=
      dedupKeep_min rowKey pdLe pdLe_refl [] sorted hsortedPW
    have hperm : ranked.Perm scored := by
      rw [hranked]
      split
      · exact List.perm_insertionSort _ _
      split
      · exact List.perm_insertionSort _ _
      · exact List.perm_insertionSort _ _
    have hmapscored : scored.map (fun p => rowKey p.1) = dd.map rowKey := by
      rw [show (fun p : CRow α × α => rowKey p.1) = rowKey ∘ Prod.fst from rfl,
        ← List.map_map, hfst]
    constructor
    · have h1 : ((ranked.take k).map (fun p => rowKey p.1)).Sublist
          (ranked.map (fun p => rowKey p.1)) := (List.take_sublist k ranked).map _
      have h2 : (ranked.map (fun p => rowKey p.1)).Perm
          (scored.map (fun p => rowKey p.1)) := hperm.map _
      exact h1.nodup (h2.nodup_iff.mpr (hmapscored ▸ hkeys))
    · intro p hp c hcand hkey
      have hp1 : p ∈ ranked := List.take_subset k ranked hp
      have hp2 : p ∈ scored := hperm.mem_iff.mp hp1
      have hp3 : p.1 ∈ dd := by
        have := List.mem_map_of_mem Prod.fst hp2
        rw [hfst] at this
        exact this
      have hcs : c ∈ sorted := (List.perm_insertionSort pdLe cands).mem_iff.mpr hcand
      exact hmin p.1 hp3 c hcs hkey

theorem rank_sorted_cheapest_generic {α : Type} [LinearOrderedField α]
    (dist : ℚ → ℚ → ℚ → ℚ → α) (df : List Row) (q : Query) (k : ℕ)
    (h : q.priority = "cheapest") :
    (rank_stationsG dist df q k).Sorted cheapLe := by
  simp only [rank_stationsG]
  by_cases hc : (candidatesG dist df q).isEmpty
  · rw [if_pos hc]; exact List.sorted_nil
  · rw [if_neg hc, if_pos h]
    exact List.Pairwise.sublist (List.take_sublist _ _)
      (List.sorted_insertionSort cheapLe _)

theorem rank_empty_of_budget_filter_empty_generic {α : Type} [LinearOrderedField α]
    (dist : ℚ → ℚ → ℚ → ℚ → α) (df : List Row) (q : Query) (k : ℕ)
    (hm : q.mode = "budget")
    (hfil : (precapG dist df q).filter
      (fun c => decide (c.price ≤ (q.scale : WithTop ℚ))) = []) :
    rank_stationsG dist df q k = [] := by
  have hcand : candidatesG dist df q = [] := by
    unfold candidatesG
    rw [if_pos hm]
    exact hfil
  simp only [rank_stationsG, hcand]
  simp

/-! ## Transport from `ℚ`-valued to `ℝ`-valued distance columns

When every distance the engine computes on a given table happens to be
rational (e.g. zero, for a station at the user's exact location), the
whole pipeline commutes with the coercion `ℚ → ℝ`; this lets concrete
runs of the real engine be evaluated by `decide` on the rational side. -/

/-- Cast the distance column of a candidate row from `ℚ` to `ℝ`. -/
def castC (c : CRow ℚ) : CRow ℝ :=
  { src := c.src, price := c.price, latitude := c.latitude,
    longitude := c.longitude, distance := (c.distance : ℝ),
    brand_match := c.brand_match }

/-- Cast a scored row from `ℚ` to `ℝ`. -/
def castP (p : CRow ℚ × ℚ) : CRow ℝ × ℝ :=
  (castC p.1, (p.2 : ℝ))

theorem enrichRowG_cast (dq : ℚ → ℚ → ℚ → ℚ → ℚ) (q : Query) (r : Row)
    (hd : ∀ la lo, r.latitude = some la → r.longitude = some lo →
      havDist q.user_lat q.user_lon la lo = ((dq q.user_lat q.user_lon la lo : ℚ) : ℝ)) :
    enrichRowG havDist q r = (enrichRowG dq q r).map castC := by
  cases hla : r.latitude with
  | none => simp [enrichRowG, hla]
  | some la =>
    cases hlo : r.longitude with
    | none => simp [enrichRowG, hla, hlo]
    | some lo =>
      have h := hd la lo hla hlo
      simp [enrichRowG, hla, hlo, castC, h]

theorem enrichG_cast (dq : ℚ → ℚ → ℚ → ℚ → ℚ) (df : List Row) (q : Query)
    (hd : ∀ r ∈ df, ∀ la lo, r.latitude = some la → r.longitude = some lo →
      havDist q.user_lat q.user_lon la lo = ((dq q.user_lat q.user_lon la lo : ℚ) : ℝ)) :
    enrichG havDist df q = (enrichG dq df q).map castC := by
  induction df with
  | nil => rfl
  | cons r rest ih =>
    unfold enrichG
    rw [List.filterMap_cons, List.filterMap_cons,
      enrichRowG_cast dq q r (fun la lo h1 h2 => hd r (List.mem_cons_self _ _) la lo h1 h2)]
    have ih' := ih (fun r' hr' la lo h1 h2 => hd r' (List.mem_cons_of_mem _ hr') la lo h1 h2)
    unfold enrichG at ih'
    cases h : enrichRowG dq q r with
    | none => simpa using ih'
    | some c => simpa using ih'

theorem precapG_cast (dq : ℚ → ℚ → ℚ → ℚ → ℚ) (df : List Row) (q : Query)
    (hd : ∀ r ∈ df, ∀ la lo, r.latitude = some la → r.longitude = some lo →
      havDist q.user_lat q.user_lon la lo = ((dq q.user_lat q.user_lon la lo : ℚ) : ℝ)) :
    precap df q = (precapG dq df q).map castC := by
  unfold precap precapG
  rw [enrichG_cast dq df q hd]
  have hfil : ((enrichG dq df q).map castC).filter
      (fun c => decide (c.distance ≤ (q.max_distance : ℝ)))
      = ((enrichG dq df q).filter
          (fun c => decide (c.distance ≤ (q.max_distance : ℚ)))).map castC := by
    rw [List.filter_map]
    congr 1
    apply List.filter_congr
    intro c _
    show decide ((c.distance : ℝ) ≤ (q.max_distance : ℝ)) = _
    rw [decide_eq_decide]
    exact Rat.cast_le
  rw [hfil]
  cases hb : brandActive q.brand with
  | false => simp [hb]
  | true =>
    simp only [hb, if_true]
    rw [List.filter_map]
    rfl

theorem candidatesG_cast (dq : ℚ → ℚ → ℚ → ℚ → ℚ) (df : List Row) (q : Query)
    (hd : ∀ r ∈ df, ∀ la lo, r.latitude = some la → r.longitude = some lo →
      havDist q.user_lat q.user_lon la lo = ((dq q.user_lat q.user_lon la lo : ℚ) : ℝ)) :
    candidates df q = (candidatesG dq df q).map castC := by
  unfold candidates candidatesG
  have hpc := precapG_cast dq df q hd
  unfold precap at hpc
  rw [hpc]
  by_cases hm : q.mode = "budget"
  · simp only [hm, if_pos]
    rw [List.filter_map]
    rfl
  · simp only [hm, if_neg, ite_false]

/-! ### Sorting commutes with relation-preserving maps -/

theorem orderedInsert_map {A B : Type} (f : A → B) (r : A → A → Prop)
    (s : B → B → Prop) [DecidableRel r] [DecidableRel s]
    (hrs : ∀ a b, s (f a) (f b) ↔ r a b) (a : A) (l : List A) :
    List.orderedInsert s (f a) (l.map f) = (List.orderedInsert r a l).map f := by
  induction l with
  | nil => rfl
  | cons b bs ih =>
    rw [List.map_cons]
    unfold List.orderedInsert
    by_cases h : r a b
    · rw [if_pos ((hrs a b).mpr h), if_pos h, List.map_cons, List.map_cons]
    · rw [if_neg (fun hs => h ((hrs a b).mp hs)), if_neg h, List.map_cons, ih]

theorem insertionSort_map {A B : Type} (f : A → B) (r : A → A → Prop)
    (s : B → B → Prop) [DecidableRel r] [DecidableRel s]
    (hrs : ∀ a b, s (f a) (f b) ↔ r a b) (l : List A) :
    List.insertionSort s (l.map f) = (List.insertionSort r l).map f := by
  induction l with
  | nil => rfl
  | cons a as ih =>
    rw [List.map_cons]
    unfold List.insertionSort
    rw [ih, orderedInsert_map f r s hrs]

theorem pdLe_castC (a b : CRow ℚ) : pdLe (castC a) (castC b) ↔ pdLe a b := by
  unfold pdLe lexKey keyLe castC
  simp [Rat.cast_le]

theorem cheapLe_castP (a b : CRow ℚ × ℚ) :
    cheapLe (castP a) (castP b) ↔ cheapLe a b := by
  unfold cheapLe lexKey keyLe castP castC
  simp [Rat.cast_le, Rat.cast_lt, Rat.cast_inj]

theorem closeLe_castP (a b : CRow ℚ × ℚ) :
    closeLe (castP a) (castP b) ↔ closeLe a b := by
  unfold closeLe lexKey keyLe castP castC
  simp [Rat.cast_le, Rat.cast_lt, Rat.cast_inj]

theorem balLe_castP (a b : CRow ℚ × ℚ) :
    balLe (castP a) (castP b) ↔ balLe a b := by
  unfold balLe keyLe castP
  simp [Rat.cast_le]

theorem dedupKeep_map_castC :
    ∀ (seen : List (String × String)) (l : List (CRow ℚ)),
      dedupKeep rowKey seen (l.map castC) = (dedupKeep rowKey seen l).map castC := by
  intro seen l
  induction l generalizing seen with
  | nil => rfl
  | cons x xs ih =>
    rw [List.map_cons]
    unfold dedupKeep
    have hk : rowKey (castC x) = rowKey x := rfl
    rw [hk]
    by_cases h : rowKey x ∈ seen
    · rw [if_pos h, if_pos h, ih]
    · rw [if_neg h, if_neg h, List.map_cons, ih]

/-! ### Normalization and scoring commute with the cast -/

theorem foldl_min_cast (x : ℚ) (xs : List ℚ) :
    (xs.map (fun v : ℚ => (v : ℝ))).foldl min (x : ℝ) = ((xs.foldl min x : ℚ) : ℝ) := by
  induction xs generalizing x with
  | nil => rfl
  | cons y ys ih =>
    rw [List.map_cons, List.foldl_cons, List.foldl_cons, ← Rat.cast_min, ih]

theorem foldl_max_cast (x : ℚ) (xs : List ℚ) :
    (xs.map (fun v : ℚ => (v : ℝ))).foldl max (x : ℝ) = ((xs.foldl max x : ℚ) : ℝ) := by
  induction xs generalizing x with
  | nil => rfl
  | cons y ys ih =>
    rw [List.map_cons, List.foldl_cons, List.foldl_cons, ← Rat.cast_max, ih]

theorem normalize_cons {α : Type} [LinearOrderedField α] (x : α) (xs : List α) :
    normalize (x :: xs)
      = if xs.foldl max x = xs.foldl min x
        then some ((x :: xs).map fun _ => 0)
        else some ((x :: xs).map fun v =>
          (v - xs.foldl min x) / (xs.foldl max x - xs.foldl min x)) := by
  unfold normalize
  rw [min?_cons_eq, max?_cons_eq]

theorem normalize_cast (l : List ℚ) :
    normalize (l.map (fun v : ℚ => (v : ℝ)))
      = (normalize l).map (List.map (fun v : ℚ => (v : ℝ))) := by
  cases l with
  | nil => rfl
  | cons x xs =>
    rw [List.map_cons, normalize_cons, normalize_cons, foldl_min_cast, foldl_max_cast]
    by_cases h : xs.foldl max x = xs.foldl min x
    · rw [if_pos (by exact_mod_cast h), if_pos h]
      simp [Function.comp_def]
    · rw [if_neg (fun hc => h (by exact_mod_cast hc)), if_neg h]
      simp only [Option.map_some']
      rw [← List.map_cons, List.map_map, List.map_map]
      congr 1
      apply List.map_congr_left
      intro v _
      simp only [Function.comp_apply]
      push_cast
      rfl

theorem normColumn_cast (l : List ℚ) :
    normColumn (l.map (fun v : ℚ => (v : ℝ)))
      = (normColumn l).map (fun v : ℚ => (v : ℝ)) := by
  unfold normColumn
  rw [normalize_cast]
  cases normalize l <;> simp

theorem zipWith_cast (g : ℚ → ℚ → ℚ) (g' : ℝ → ℝ → ℝ)
    (h : ∀ x y : ℚ, g' (x : ℝ) (y : ℝ) = ((g x y : ℚ) : ℝ)) :
    ∀ (xs ys : List ℚ),
      List.zipWith g' (xs.map (fun v : ℚ => (v : ℝ))) (ys.map (fun v : ℚ => (v : ℝ)))
        = (List.zipWith g xs ys).map (fun v : ℚ => (v : ℝ)) := by
  intro xs
  induction xs with
  | nil => intro ys; rfl
  | cons x xs ih =>
    intro ys
    cases ys with
    | nil => rfl
    | cons y ys => simp [h, ih]

theorem scoresOf_cast (q : Query) (dd : List (CRow ℚ)) :
    scoresOf q (dd.map castC) = (scoresOf q dd).map (fun v : ℚ => (v : ℝ)) := by
  unfold scoresOf
  have hnp : (dd.map castC).map (fun c => priceToField c.price)
      = (dd.map fun c => (priceToField c.price : ℚ)).map (fun v : ℚ => (v : ℝ)) := by
    rw [List.map_map, List.map_map]
    apply List.map_congr_left
    intro c _
    show (priceToField (castC c).price : ℝ) = (((priceToField c.price : ℚ) : ℚ) : ℝ)
    simp [priceToField, castC, Rat.cast_id]
  have hnd : (dd.map castC).map (fun c => c.distance)
      = (dd.map fun c => c.distance).map (fun v : ℚ => (v : ℝ)) := by
    rw [List.map_map, List.map_map]
    rfl
  have hna : (dd.map castC).map (fun c => ((amenity_proxy c.src.name : ℚ) : ℝ))
      = (dd.map fun c => ((amenity_proxy c.src.name : ℚ) : ℚ)).map
          (fun v : ℚ => (v : ℝ)) := by
    rw [List.map_map, List.map_map]
    apply List.map_congr_left
    intro c _
    simp [castC, Rat.cast_id]
  have hbb : (if brandActive q.brand then
        (dd.map castC).map (fun c => if c.brand_match then (-(7/100) : ℝ) else 0)
        else (dd.map castC).map fun _ => (0 : ℝ))
      = (if brandActive q.brand then
          dd.map (fun c => if c.brand_match then (-(7/100) : ℚ) else 0)
          else dd.map fun _ => (0 : ℚ)).map (fun v : ℚ => (v : ℝ)) := by
    split
    · rw [List.map_map, List.map_map]
      apply List.map_congr_left
      intro c _
      show (if (castC c).brand_match then (-(7/100) : ℝ) else 0) = _
      by_cases hbm : c.brand_match
      · simp [castC, hbm]
      · simp [castC, hbm]
    · rw [List.map_map, List.map_map]
      apply List.map_congr_left
      intro c _
      simp
  rw [hnp, hnd, hna, hbb, normColumn_cast, normColumn_cast, normColumn_cast]
  generalize (normColumn (dd.map fun c => (priceToField c.price : ℚ))) = np
  generalize (normColumn (dd.map fun c => c.distance)) = nd
  generalize (normColumn (dd.map fun c => ((amenity_proxy c.src.name : ℚ) : ℚ))) = na
  generalize (if brandActive q.brand then
      dd.map (fun c => if c.brand_match then (-(7/100) : ℚ) else 0)
      else dd.map fun _ => (0 : ℚ)) = bb
  induction np generalizing nd na bb with
  | nil => simp
  | cons p np ih =>
    cases nd with
    | nil => simp
    | cons d nd =>
      cases na with
      | nil => simp
      | cons a na =>
        cases bb with
        | nil => simp
        | cons b bb =>
          simp only [List.map_cons, List.zipWith_cons_cons]
          rw [ih]
          congr 1
          push_cast
          ring

/-! ### The whole engine commutes with the cast -/

theorem rank_stations_cast (dq : ℚ → ℚ → ℚ → ℚ → ℚ) (df : List Row) (q : Query)
    (k : ℕ)
    (hd : ∀ r ∈ df, ∀ la lo, r.latitude = some la → r.longitude = some lo →
      havDist q.user_lat q.user_lon la lo = ((dq q.user_lat q.user_lon la lo : ℚ) : ℝ)) :
    rank_stations df q k = (rank_stationsG dq df q k).map castP := by
  unfold rank_stations
  simp only [rank_stationsG]
  have hcand := candidatesG_cast dq df q hd
  unfold candidates at hcand
  rw [hcand]
  by_cases hc : (candidatesG dq df q).isEmpty
  · rw [if_pos (by simpa using hc), if_pos hc]
    rfl
  · rw [if_neg (by simpa using hc), if_neg hc]
    rw [insertionSort_map castC pdLe pdLe pdLe_castC, dedupKeep_map_castC,
      scoresOf_cast, List.zip_map]
    have hzip : List.map (Prod.map castC (fun v : ℚ => (v : ℝ)))
        ((dedupKeep rowKey [] (List.insertionSort pdLe (candidatesG dq df q))).zip
          (scoresOf q (dedupKeep rowKey [] (List.insertionSort pdLe (candidatesG dq df q)))))
        = ((dedupKeep rowKey [] (List.insertionSort pdLe (candidatesG dq df q))).zip
          (scoresOf q (dedupKeep rowKey [] (List.insertionSort pdLe
            (candidatesG dq df q))))).map castP := rfl
    rw [hzip]
    by_cases hp1 : q.priority = "cheapest"
    · rw [if_pos hp1, if_pos hp1, insertionSort_map castP cheapLe cheapLe cheapLe_castP,
        List.map_take]
    · rw [if_neg hp1, if_neg hp1]
      by_cases hp2 : q.priority = "closest"
      · rw [if_pos hp2, if_pos hp2, insertionSort_map castP closeLe closeLe closeLe_castP,
          List.map_take]
      · rw [if_neg hp2, if_neg hp2, insertionSort_map castP balLe balLe balLe_castP,
          List.map_take]

/-! ## Concrete evaluation infrastructure

The haversine distance from a point to itself is zero, so a table whose
stations sit at the user's exact coordinates has an all-rational (zero)
distance column, and `rank_stations_cast` applies with the constantly-zero
rational distance function. -/

theorem haversine_self (lat lon : ℝ) : haversine_miles lat lon lat lon = 0 := by
  unfold haversine_miles radians atan2
  norm_num [Real.sin_zero, Real.sqrt_zero, Real.sqrt_one, Real.arctan_zero]

/-- The constantly-zero rational distance function. -/
def zeroDist : ℚ → ℚ → ℚ → ℚ → ℚ := fun _ _ _ _ => 0

theorem hd_zero (df : List Row) (q : Query)
    (hcoord : ∀ r ∈ df, r.latitude = some q.user_lat ∧ r.longitude = some q.user_lon) :
    ∀ r ∈ df, ∀ la lo, r.latitude = some la → r.longitude = some lo →
      havDist q.user_lat q.user_lon la lo
        = ((zeroDist q.user_lat q.user_lon la lo : ℚ) : ℝ) := by
  intro r hr la lo h1 h2
  obtain ⟨ha, hb⟩ := hcoord r hr
  rw [ha] at h1
  rw [hb] at h2
  obtain rfl : q.user_lat = la := Option.some.inj h1
  obtain rfl : q.user_lon = lo := Option.some.inj h2
  unfold havDist zeroDist
  rw [haversine_self]
  norm_num

theorem toNatD0 : ('0' : Char).toNat = 48 := rfl

theorem toNatD2 : ('2' : Char).toNat = 50 := rfl

theorem toNatD4 : ('4' : Char).toNat = 52 := rfl

theorem toNatD5 : ('5' : Char).toNat = 53 := rfl

/-! ### Concrete input for C1: budget mode, every price over the cap -/

def rowOver1 : Row := ⟨"Alpha Gas", "1 A St", some "4.20", some 34, some (-118)⟩

def rowOver2 : Row := ⟨"Beta Gas", "2 B St", some "4.50", some 34, some (-118)⟩

def dfC1 : List Row := [rowOver1, rowOver2]

def qC1 : Query := ⟨34, -118, "budget", 4, 6, "balanced", none⟩

theorem precapC1 : precapG zeroDist dfC1 qC1
    = [⟨rowOver1, ((21/5 : ℚ) : WithTop ℚ), 34, -118, 0, false⟩,
       ⟨rowOver2, ((9/2 : ℚ) : WithTop ℚ), 34, -118, 0, false⟩] := by
  norm_num +decide [precapG, enrichG, enrichRowG, dfC1, qC1, rowOver1, rowOver2,
    List.filterMap_cons, parse_price, extractNum, trimChars, digitsVal,
    toNatD0, toNatD2, toNatD4, toNatD5, brandMatchOf, brandActive, zeroDist]

theorem capFilterC1 : (precapG zeroDist dfC1 qC1).filter
    (fun c => decide (c.price ≤ (qC1.scale : WithTop ℚ))) = [] := by
  rw [precapC1]
  have h1 : ¬ ((21/5 : ℚ) : WithTop ℚ) ≤ (qC1.scale : WithTop ℚ) := by
    rw [show qC1.scale = 4 from rfl, WithTop.coe_le_coe]
    norm_num
  have h2 : ¬ ((9/2 : ℚ) : WithTop ℚ) ≤ (qC1.scale : WithTop ℚ) := by
    rw [show qC1.scale = 4 from rfl, WithTop.coe_le_coe]
    norm_num
  simp [List.filter, h1, h2]

theorem candC1 : candidatesG zeroDist dfC1 qC1 = [] := by
  rw [candidatesG, if_pos (show qC1.mode = "budget" from rfl)]
  exact capFilterC1

theorem rankC1 : rank_stationsG zeroDist dfC1 qC1 10 = [] := by
  simp only [rank_stationsG, candC1]
  simp

/-! ### Concrete input for C2: case-variant duplicate rows -/

def rowShellA : Row := ⟨"Shell", "1 Main St", some "4.00", some 34, some (-118)⟩

def rowShellB : Row := ⟨"shell", "1 Main St", some "4.50", some 34, some (-118)⟩

def dfC2 : List Row := [rowShellA, rowShellB]

def qC2 : Query := ⟨34, -118, "budget", 5, 6, "balanced", none⟩

def cShellA : CRow ℚ := ⟨rowShellA, ((4 : ℚ) : WithTop ℚ), 34, -118, 0, false⟩

def cShellB : CRow ℚ := ⟨rowShellB, ((9/2 : ℚ) : WithTop ℚ), 34, -118, 0, false⟩

theorem precapC2 : precapG zeroDist dfC2 qC2 = [cShellA, cShellB] := by
  norm_num +decide [precapG, enrichG, enrichRowG, dfC2, qC2, rowShellA, rowShellB,
    List.filterMap_cons, parse_price, extractNum, trimChars, digitsVal,
    toNatD0, toNatD4, toNatD5, brandMatchOf, brandActive, zeroDist, cShellA, cShellB]

theorem candC2 : candidatesG zeroDist dfC2 qC2 = [cShellA, cShellB] := by
  rw [candidatesG, if_pos (show qC2.mode = "budget" from rfl), precapC2]
  rw [List.filter_eq_self]
  intro a ha
  rw [decide_eq_true_eq]
  rcases List.mem_cons.mp ha with rfl | ha2
  · rw [show cShellA.price = ((4 : ℚ) : WithTop ℚ) from rfl,
      show qC2.scale = 5 from rfl, WithTop.coe_le_coe]
    norm_num
  rcases List.mem_cons.mp ha2 with rfl | ha3
  · rw [show cShellB.price = ((9/2 : ℚ) : WithTop ℚ) from rfl,
      show qC2.scale = 5 from rfl, WithTop.coe_le_coe]
    norm_num
  · simp at ha3

theorem sortC2 : List.insertionSort pdLe [cShellA, cShellB] = [cShellA, cShellB] := by
  have hpd : pdLe cShellA cShellB := by
    unfold pdLe lexKey cShellA cShellB
    left
    rw [WithTop.coe_lt_coe]
    norm_num
  simp [List.insertionSort, List.orderedInsert, hpd]

theorem ddC2 : dedupKeep rowKey [] [cShellA, cShellB] = [cShellA, cShellB] := by
  norm_num +decide [dedupKeep, rowKey, cShellA, cShellB, rowShellA, rowShellB]

theorem scoresC2 : scoresOf qC2 [cShellA, cShellB] = [0, 13/20] := by
  unfold scoresOf
  simp only [List.map_cons, List.map_nil, Rat.cast_id]
  have hnp : normColumn [(priceToField cShellA.price : ℚ), priceToField cShellB.price]
      = [0, 1] := by
    rw [show (priceToField cShellA.price : ℚ) = 4 from rfl,
      show (priceToField cShellB.price : ℚ) = 9/2 from rfl, normColumn, normalize_cons]
    norm_num
  have hnd : normColumn [cShellA.distance, cShellB.distance] = [0, 0] := by
    rw [show cShellA.distance = (0:ℚ) from rfl, show cShellB.distance = (0:ℚ) from rfl,
      normColumn, normalize_cons]
    norm_num
  have hna : normColumn [amenity_proxy cShellA.src.name, amenity_proxy cShellB.src.name]
      = [0, 0] := by
    have ha : amenity_proxy cShellA.src.name = 1 := by
      norm_num +decide [amenity_proxy, lowerStr, strContains, cShellA, rowShellA]
    have hb : amenity_proxy cShellB.src.name = 1 := by
      norm_num +decide [amenity_proxy, lowerStr, strContains, cShellB, rowShellB]
    rw [ha, hb, normColumn, normalize_cons]
    norm_num
  rw [hnp, hnd, hna]
  have hw : weights_for qC2.mode qC2.priority = ⟨13/20, 7/20, 0, 0, 0⟩ := by
    norm_num +decide [weights_for, clamped, clampW, nudge, baseWeights, lowerStr, qC2, W.sum]
  rw [hw]
  norm_num +decide [qC2, brandActive, cShellA, cShellB, List.zipWith]

theorem rankC2 : rank_stationsG zeroDist dfC2 qC2 10
    = [(cShellA, 0), (cShellB, 13/20)] := by
  simp only [rank_stationsG, candC2]
  rw [sortC2, ddC2, scoresC2]
  have hbal : balLe (cShellA, (0:ℚ)) (cShellB, 13/20) := by
    unfold balLe keyLe
    norm_num
  norm_num +decide [qC2, List.zip, List.zipWith, List.insertionSort, List.orderedInsert, hbal]

/-! ### Concrete input for C6: equal prices, different scores -/

def rowShellOne : Row := ⟨"Shell One", "1 A St", some "4.00", some 34, some (-118)⟩

def rowFoo : Row := ⟨"Foo", "2 B St", some "4.00", some 34, some (-118)⟩

def dfC6 : List Row := [rowShellOne, rowFoo]

def qC6 : Query := ⟨34, -118, "comfort", 1/2, 6, "cheapest", none⟩

def cShellOne : CRow ℚ := ⟨rowShellOne, ((4 : ℚ) : WithTop ℚ), 34, -118, 0, false⟩

def cFoo : CRow ℚ := ⟨rowFoo, ((4 : ℚ) : WithTop ℚ), 34, -118, 0, false⟩

theorem precapC6 : precapG zeroDist dfC6 qC6 = [cShellOne, cFoo] := by
  norm_num +decide [precapG, enrichG, enrichRowG, dfC6, qC6, rowShellOne, rowFoo,
    List.filterMap_cons, parse_price, extractNum, trimChars, digitsVal,
    toNatD0, toNatD4, brandMatchOf, brandActive, zeroDist, cShellOne, cFoo]

theorem candC6 : candidatesG zeroDist dfC6 qC6 = [cShellOne, cFoo] := by
  rw [candidatesG, if_neg (show ¬ qC6.mode = "budget" by decide)]
  exact precapC6

theorem sortC6 : List.insertionSort pdLe [cShellOne, cFoo] = [cShellOne, cFoo] := by
  have hpd : pdLe cShellOne cFoo := by
    unfold pdLe lexKey keyLe
    right
    exact ⟨rfl, le_refl _⟩
  simp [List.insertionSort, List.orderedInsert, hpd]

theorem ddC6 : dedupKeep rowKey [] [cShellOne, cFoo] = [cShellOne, cFoo] := by
  norm_num +decide [dedupKeep, rowKey, cShellOne, cFoo, rowShellOne, rowFoo]

theorem scoresC6 : scoresOf qC6 [cShellOne, cFoo] = [-(1/42), 0] := by
  unfold scoresOf
  simp only [List.map_cons, List.map_nil, Rat.cast_id]
  have hnp : normColumn [(priceToField cShellOne.price : ℚ), priceToField cFoo.price]
      = [0, 0] := by
    rw [show (priceToField cShellOne.price : ℚ) = 4 from rfl,
      show (priceToField cFoo.price : ℚ) = 4 from rfl, normColumn, normalize_cons]
    norm_num
  have hnd : normColumn [cShellOne.distance, cFoo.distance] = [0, 0] := by
    rw [show cShellOne.distance = (0:ℚ) from rfl, show cFoo.distance = (0:ℚ) from rfl,
      normColumn, normalize_cons]
    norm_num
  have hna : normColumn [amenity_proxy cShellOne.src.name, amenity_proxy cFoo.src.name]
      = [1, 0] := by
    have ha : amenity_proxy cShellOne.src.name = 1 := by
      norm_num +decide [amenity_proxy, lowerStr, strContains, cShellOne, rowShellOne]
    have hb : amenity_proxy cFoo.src.name = 0 := by
      norm_num +decide [amenity_proxy, lowerStr, strContains, cFoo, rowFoo]
    rw [ha, hb, normColumn, normalize_cons]
    norm_num
  rw [hnp, hnd, hna]
  have hw : weights_for qC6.mode qC6.priority = ⟨10/21, 4/21, 5/21, 2/21, 0⟩ := by
    norm_num +decide [weights_for, clamped, clampW, nudge, baseWeights, lowerStr, qC6, W.sum]
  rw [hw]
  norm_num +decide [qC6, brandActive, cShellOne, cFoo, List.zipWith]

theorem rankC6 : rank_stationsG zeroDist dfC6 qC6 10
    = [(cShellOne, -(1/42)), (cFoo, 0)] := by
  simp only [rank_stationsG, candC6]
  rw [sortC6, ddC6, scoresC6]
  have hch : cheapLe (cShellOne, (-(1/42) : ℚ)) (cFoo, 0) := by
    unfold cheapLe lexKey keyLe
    right
    refine ⟨rfl, Or.inl ?_⟩
    norm_num
  norm_num +decide [qC6, List.zip, List.zipWith, List.insertionSort, List.orderedInsert, hch]

/-! ## Claim C1 (budget cap, lines 153-158) -/

/-- **C1** (counterexample): at a budget query with cap 4.00 over a table
whose candidate prices are 4.20 and 4.50, the pre-cap candidate set is
non-empty and the price-cap filter empties it — and `rank_stations`
returns the **empty** list: no fallback to the pre-cap candidates occurs,
no fallback flag exists, and no price-over-cap penalty is ever applied,
contradicting the claimed non-empty, penalty-ordered result. -/
theorem budget_cap_no_fallback_cx :
    precap dfC1 qC1 ≠ []
    ∧ (precap dfC1 qC1).filter
        (fun c => decide (c.price ≤ (qC1.scale : WithTop ℚ))) = []
    ∧ rank_stations dfC1 qC1 10 = [] := by
  have hpcast := precapG_cast zeroDist dfC1 qC1 (hd_zero dfC1 qC1 (by decide))
  refine ⟨?_, ?_, ?_⟩
  · rw [hpcast, precapC1]
    simp
  · rw [hpcast, List.filter_map]
    rw [show (fun c : CRow ℝ => decide (c.price ≤ (qC1.scale : WithTop ℚ))) ∘ castC
      = (fun c : CRow ℚ => decide (c.price ≤ (qC1.scale : WithTop ℚ))) from rfl]
    rw [capFilterC1]
    rfl
  · rw [rank_stations_cast zeroDist dfC1 qC1 10 (hd_zero dfC1 qC1 (by decide)), rankC1]
    rfl

/-- **C1** (amended): the budget cap is a hard filter.  For every budget-mode
query, if the price-cap filter empties the (non-empty) pre-cap candidate
set, `rank_stations` returns the empty list — there is no fallback to the
pre-cap candidates and no price-over-cap penalty. -/
theorem budget_cap_empties_returns_empty (df : List Row) (q : Query) (k : ℕ)
    (hm : q.mode = "budget") (hpre : precap df q ≠ [])
    (hfil : (precap df q).filter
      (fun c => decide (c.price ≤ (q.scale : WithTop ℚ))) = []) :
    rank_stations df q k = [] :=
  rank_empty_of_budget_filter_empty_generic havDist df q k hm hfil

/-- Witness for C1 (amended) at the concrete over-cap table. -/
theorem budget_cap_empties_returns_empty_witness :
    rank_stations dfC1 qC1 10 = [] := by
  apply budget_cap_empties_returns_empty dfC1 qC1 10 rfl
  · rw [precapG_cast zeroDist dfC1 qC1 (hd_zero dfC1 qC1 (by decide)), precapC1]
    simp
  · rw [precapG_cast zeroDist dfC1 qC1 (hd_zero dfC1 qC1 (by decide)), List.filter_map]
    rw [show (fun c : CRow ℝ => decide (c.price ≤ (qC1.scale : WithTop ℚ))) ∘ castC
      = (fun c : CRow ℚ => decide (c.price ≤ (qC1.scale : WithTop ℚ))) from rfl]
    rw [capFilterC1]
    rfl

/-! ## Claim C2 (deduplication, lines 160-165) -/

/-- **C2** (counterexample): two rows with identical normalized (lower-cased)
name, identical address and identical coordinates, but different source
formatting ("Shell" vs "shell"), both survive: the engine deduplicates by
the **raw** `(name, address)` pair — no lower-casing, no trimming, no
coordinates — so the response contains two entries for the same claimed
station identity instead of exactly one lower-priced row. -/
theorem dedup_case_sensitive_cx :
    lowerStr rowShellA.name = lowerStr rowShellB.name
    ∧ rowShellA.address = rowShellB.address
    ∧ rowShellA.latitude = rowShellB.latitude
    ∧ rowShellA.longitude = rowShellB.longitude
    ∧ (rank_stations dfC2 qC2 10).map (fun p => p.1.src.name) = ["Shell", "shell"] := by
  refine ⟨by decide, by decide, by decide, by decide, ?_⟩
  rw [rank_stations_cast zeroDist dfC2 qC2 10 (hd_zero dfC2 qC2 (by decide)), rankC2]
  rfl

/-- **C2** (amended): for every table and query, the ranked output has at
most one row per **raw** `(name, address)` pair, and each retained row is
minimal among the candidates sharing its raw key in the lexicographic
(price, then distance) order — lower price first, ties broken by shorter
distance. -/
theorem dedup_unique_raw_key (df : List Row) (q : Query) (k : ℕ) :
    ((rank_stations df q k).map (fun p => rowKey p.1)).Nodup
    ∧ ∀ p ∈ rank_stations df q k, ∀ c ∈ candidates df q,
        rowKey c = rowKey p.1 → pdLe p.1 c :=
  rank_dedup_generic havDist df q k

/-- Witness for C2 (amended) at the concrete case-variant table. -/
theorem dedup_unique_raw_key_witness :
    ((rank_stations dfC2 qC2 10).map (fun p => rowKey p.1)).Nodup
    ∧ ∀ p ∈ rank_stations dfC2 qC2 10, ∀ c ∈ candidates dfC2 qC2,
        rowKey c = rowKey p.1 → pdLe p.1 c :=
  dedup_unique_raw_key dfC2 qC2 10

/-! ## Claim C6 (priority `cheapest`, lines 212-214) -/

/-- **C6** (counterexample): under priority `cheapest`, two stations with
equal price are returned with the **lower**-score station first (the
demo's score is minimized — line 77 — and the tie-break sorts score
ascending), contradicting the claim that price ties are broken by
descending score. -/
theorem cheapest_tiebreak_ascending_score_cx :
    ∃ a b, rank_stations dfC6 qC6 10 = [a, b]
      ∧ a.1.price = b.1.price ∧ a.2 < b.2 := by
  rw [rank_stations_cast zeroDist dfC6 qC6 10 (hd_zero dfC6 qC6 (by decide)), rankC6]
  refine ⟨castP (cShellOne, -(1/42)), castP (cFoo, 0), rfl, rfl, ?_⟩
  show ((-(1/42) : ℚ) : ℝ) < ((0 : ℚ) : ℝ)
  exact_mod_cast (by norm_num : (-(1/42) : ℚ) < (0 : ℚ))

/-- **C6** (amended): for every query with priority `cheapest`, the returned
list is sorted by ascending price, ties broken by **ascending** score
(the demo minimizes score, so ascending score puts better stations
first), then by ascending distance. -/
theorem cheapest_sorted_price_score_distance (df : List Row) (q : Query) (k : ℕ)
    (h : q.priority = "cheapest") :
    (rank_stations df q k).Sorted cheapLe :=
  rank_sorted_cheapest_generic havDist df q k h

/-- Witness for C6 (amended) at the concrete equal-price table. -/
theorem cheapest_sorted_price_score_distance_witness :
    (rank_stations dfC6 qC6 10).Sorted cheapLe :=
  cheapest_sorted_price_score_distance dfC6 qC6 10 rfl

end FuelAdvisor
